import Mathlib

/-!
Verification development for the conversation/message indexing engine of the
claude-code-proxy repository (Go sources: `internal/service/indexer.go`,
`internal/cli/index.go`, the find-conversations CLI).

Modelling conventions (shallow embedding):

* JSON payloads are modelled as parsed `Json` values.  Go's pipeline
  unmarshals raw bytes into `map[string]interface{}` (duplicate keys: the
  last occurrence wins) and re-marshals with object keys sorted; the
  canonical byte form of a value is therefore produced here by
  `serializeJson`, which deduplicates object keys (last wins) and sorts them
  at every nesting level, exactly like `json.Marshal` on decoded maps.
* `sha256Hash` is modelled as the identity on the hashed bytes: the hex
  digest is replaced by the canonical bytes themselves, i.e. the embedding
  assumes collision-freeness of SHA-256.  The dedup key of the
  `message_content` table is this string.
* The tiktoken tokenizer is an external dependency; it is modelled as an
  abstract `Option (String -> Nat)` (`none` = initialization failed, in
  which case every estimate is 0, as in `NewIndexer`).
* SQLite tables are modelled as lists of rows; the UNIQUE / PRIMARY KEY
  constraints are modelled as explicit membership checks before insertion,
  and a transaction is modelled by running the whole indexing step on a
  working copy of the store and discarding it on error (`tx.Rollback`).
* Timestamps are modelled as integers (seconds); SQLite's
  `datetime(ts, '-10 minutes')` becomes `ts - 600` and string ordering of
  ISO-8601 timestamps coincides with the numeric order.
-/

namespace ClaudeProxy

/-- Parsed JSON values.  Numbers are modelled as integers: every number
occurring in the indexed payloads (indices, status codes) is integral. -/
inductive Json where
  | null : Json
  | bool (b : Bool) : Json
  | num (n : Int) : Json
  | str (s : String) : Json
  | arr (elems : List Json) : Json
  | obj (fields : List (String × Json)) : Json
deriving Repr

/-- Go map semantics for JSON objects: the value of a key is the value of its
last occurrence (`map[k] = v` executed in textual order). -/
def getField : List (String × Json) → String → Option Json
  | [], _ => none
  | (k, v) :: fs, key =>
    match getField fs key with
    | some r => some r
    | none => if k = key then some v else none

/-- Keep only the last occurrence of every key (Go map semantics). -/
def dedupKeys {α : Type} : List (String × α) → List (String × α)
  | [] => []
  | p :: rest =>
    if rest.any (fun q => q.1 == p.1) then dedupKeys rest
    else p :: dedupKeys rest

/-- Minimal JSON string escaping (quotes, backslash, common controls).  Go's
`json.Marshal` additionally escapes `<`, `>` and `&`; that recoding is
injective and key-order independent, so equality of canonical forms is
unaffected by this simplification. -/
def escapeChar (c : Char) : String :=
  if c = '"' then "\\\""
  else if c = '\\' then "\\\\"
  else if c = '\n' then "\\n"
  else if c = '\t' then "\\t"
  else if c = '\r' then "\\r"
  else String.singleton c

def escapeStr (s : String) : String :=
  String.join (s.data.map escapeChar)

/-- strings.Join with separator "," (used for context id lists, signatures
and the serializer). -/
def strJoin : List String → String
  | [] => ""
  | [s] => s
  | s :: t :: ts => s ++ "," ++ strJoin (t :: ts)

/-- Byte-order comparison of keys (Go sorts object keys with `<` on UTF-8
bytes; for codepoints this is codepoint order). -/
def charListLe : List Char → List Char → Bool
  | [], _ => true
  | _ :: _, [] => false
  | c :: cs, d :: ds =>
    if c.toNat < d.toNat then true
    else if d.toNat < c.toNat then false
    else charListLe cs ds

def keyLe (a b : String) : Bool := charListLe a.data b.data

/-- Insertion sort of serialized fields by key (`json.Marshal` sorts map
keys; keys are unique after deduplication). -/
def insertField (p : String × String) :
    List (String × String) → List (String × String)
  | [] => [p]
  | q :: qs => if keyLe p.1 q.1 then p :: q :: qs else q :: insertField p qs

def sortFields : List (String × String) → List (String × String)
  | [] => []
  | p :: ps => insertField p (sortFields ps)

mutual

/-- Canonical serialization of a JSON value: object keys deduplicated (last
occurrence wins) and sorted, mirroring `json.Marshal` applied to a value
decoded into `map[string]interface{}`. -/
def serializeJson : Json → String
  | .null => "null"
  | .bool b => if b then "true" else "false"
  | .num n => toString n
  | .str s => "\"" ++ escapeStr s ++ "\""
  | .arr xs => "[" ++ strJoin (serializeList xs) ++ "]"
  | .obj fs =>
    "\x7b" ++
      strJoin
        ((sortFields (dedupKeys (serializeFields fs))).map
          (fun p => "\"" ++ escapeStr p.1 ++ "\":" ++ p.2)) ++
    "\x7d"

def serializeList : List Json → List String
  | [] => []
  | x :: xs => serializeJson x :: serializeList xs

def serializeFields : List (String × Json) → List (String × String)
  | [] => []
  | (k, v) :: fs => (k, serializeJson v) :: serializeFields fs

end

/-- sha256Hash is modelled as the identity on the hashed bytes (hex digest
replaced by the bytes themselves; collision-freeness of SHA-256 assumed). -/
def sha256Hash (data : String) : String := data

/-- Strip the `cache_control` key from one content block (Go:
`delete(blockMap, "cache_control")`; non-object blocks untouched). -/
def stripCacheControl (block : Json) : Json :=
  match block with
  | .obj fs => .obj (fs.filter (fun p => p.1 ≠ "cache_control"))
  | b => b

/-- Replace the value of key `k` (all occurrences collapsed, new binding
last, matching the Go map update `msg["content"] = ...`; the serializer's
dedup/sort makes the position immaterial). -/
def setField (fs : List (String × Json)) (k : String) (v : Json) :
    List (String × Json) :=
  fs.filter (fun p => p.1 ≠ k) ++ [(k, v)]

/-- normalizeMessage normalizes message content for consistent hashing:
1. string content becomes `[{"type":"text","text":...}]`;
2. `cache_control` is removed from each (top-level) content block.
Non-object messages fall back to the input unchanged. -/
def normalizeMessage (msgRaw : Json) : Json :=
  match msgRaw with
  | .obj fs =>
    match getField fs "content" with
    | some (.str s) =>
      .obj (setField fs "content"
        (.arr [.obj [("type", .str "text"), ("text", .str s)]]))
    | some (.arr blocks) =>
      .obj (setField fs "content" (.arr (blocks.map stripCacheControl)))
    | _ => msgRaw
  | m => m

/-- Canonical byte form of a message: serialization of its normalization
(`string(normalizedMsg)` in the source). -/
def canonicalBytes (msgRaw : Json) : String :=
  serializeJson (normalizeMessage msgRaw)

/-- strconv.FormatInt applied to each id, joined with ",". -/
def idsJoin (ids : List Nat) : String :=
  strJoin (ids.map Nat.repr)

/-- Unmarshal of one array element into `struct{Type string}`: objects give
their `type` field ("" when missing or null), a JSON null gives the zero
struct, anything else is an unmarshal error (`none`). -/
def blockTypeOf : Json → Option String
  | .obj fs =>
    match getField fs "type" with
    | none => some ""
    | some .null => some ""
    | some (.str t) => some t
    | some _ => none
  | .null => some ""
  | _ => none

/-- computeSignature extracts content block types and joins them with ",".
A JSON array parses element-wise (any failure makes the whole array attempt
fail, after which the string attempt also fails, yielding "").  JSON null
unmarshals into an empty slice, so the signature is "".  A string gives the
literal signature "text". -/
def computeSignature (content : Option Json) : String :=
  match content with
  | none => ""
  | some (.arr blocks) =>
    match blocks.mapM blockTypeOf with
    | some types => strJoin types
    | none => ""
  | some .null => ""
  | some (.str _) => "text"
  | some _ => ""

/-- Abstract tokenizer: `none` models a failed `tokenizer.Get` (every
estimate degrades to 0); `some e` maps a string to its token count. -/
abbrev Enc := Option (String → Nat)

/-- Token contribution of one content block (a decoded JSON object): string
values under `text`, `thinking` or `content` are tokenized directly, the
`input` value is serialized and tokenized.  Keys are deduplicated first
(map semantics); iteration order is immaterial for the sum. -/
def blockTokens (e : String → Nat) (fs : List (String × Json)) : Nat :=
  (dedupKeys fs).foldl
    (fun total p =>
      if p.1 = "text" ∨ p.1 = "thinking" ∨ p.1 = "content" then
        match p.2 with
        | .str s => total + e s
        | _ => total
      else if p.1 = "input" then total + e (serializeJson p.2)
      else total)
    0

/-- Unmarshal of one element into `map[string]interface{}`: an object gives
its fields, null gives the empty map, anything else is an error. -/
def blockFieldsOf : Json → Option (List (String × Json))
  | .obj fs => some fs
  | .null => some []
  | _ => none

/-- estimateTokens counts tokens in the content blocks of a (normalized)
message, mirroring the Go field probing: content parsed as an array of
blocks first, then as a bare string; every failure yields 0. -/
def estimateTokens (enc : Enc) (normalizedMsg : Json) : Nat :=
  match enc with
  | none => 0
  | some e =>
    match normalizedMsg with
    | .obj fs =>
      match getField fs "content" with
      | none => 0
      | some .null => 0
      | some (.arr xs) =>
        match xs.mapM blockFieldsOf with
        | some blocks => (blocks.map (blockTokens e)).foldl (· + ·) 0
        | none => 0
      | some (.str s) => e s
      | some _ => 0
    | _ => 0

/-- estimateSystemTokens: the system prompt is either a bare string or an
array of `{text}` objects; anything else yields 0.  A JSON null unmarshals
into the zero string. -/
def estimateSystemTokens (enc : Enc) (systemRaw : Option Json) : Nat :=
  match systemRaw, enc with
  | none, _ => 0
  | _, none => 0
  | some s, some e =>
    match s with
    | .str str => e str
    | .null => e ""
    | .arr xs =>
      match xs.mapM (fun x =>
          match x with
          | .obj fs =>
            match getField fs "text" with
            | none => some ""
            | some .null => some ""
            | some (.str t) => some t
            | some _ => none
          | .null => some ""
          | _ => none) with
      | some texts => (texts.map e).foldl (· + ·) 0
      | none => 0
    | _ => 0

/-- estimateToolsTokens serializes the whole tools value and tokenizes it as
one blob (the source tokenizes the raw bytes; we re-serialize canonically,
an equality-preserving recoding). -/
def estimateToolsTokens (enc : Enc) (toolsRaw : Option Json) : Nat :=
  match toolsRaw, enc with
  | none, _ => 0
  | _, none => 0
  | some t, some e => e (serializeJson t)

/-- Unmarshal of a message into `struct{Role string; Content RawMessage}`:
an object yields its role ("" when missing or null; error when non-string)
and raw content; JSON null yields the zero struct; anything else errors. -/
def parseMessage (m : Json) : Option (String × Option Json) :=
  match m with
  | .obj fs =>
    match getField fs "role" with
    | none => some ("", getField fs "content")
    | some .null => some ("", getField fs "content")
    | some (.str role) => some (role, getField fs "content")
    | some _ => none
  | .null => some ("", none)
  | _ => none

/-- Parsed request body (`struct{Messages []RawMessage; System RawMessage;
Tools RawMessage}`). -/
structure ParsedRequest where
  messages : List Json
  system : Option Json
  tools : Option Json

/-- Unmarshal of the request body: must be an object (or null); `messages`,
when present, must be an array (or null). -/
def parseRequest (body : Json) : Option ParsedRequest :=
  match body with
  | .obj fs =>
    match getField fs "messages" with
    | none => some ⟨[], getField fs "system", getField fs "tools"⟩
    | some .null => some ⟨[], getField fs "system", getField fs "tools"⟩
    | some (.arr ms) => some ⟨ms, getField fs "system", getField fs "tools"⟩
    | some _ => none
  | .null => some ⟨[], none, none⟩
  | _ => none

/-- Captured response record (the subset of the stored response JSON the
indexer relies on).  `body = none` models an absent/empty `body` field; each
streaming chunk is the JSON event after stripping the `data: ` prefix, with
`none` standing for a chunk whose payload fails to parse (skipped with
`continue` in the source). -/
structure CapturedResponse where
  statusCode : Int
  isStreaming : Bool
  body : Option Json
  streamingChunks : List (Option Json)

/-- Go type assertion `v.(string)` with discarded ok flag: non-strings give
the zero string. -/
def asStr : Option Json → String
  | some (.str s) => s
  | _ => ""

/-- Go type assertion on the `index` field (`event["index"].(float64)`
followed by `int(...)`); non-numbers give 0.  Indices are non-negative in
every well-formed stream (a negative index would panic in the source). -/
def asIndex : Option Json → Nat
  | some (.num n) => n.toNat
  | _ => 0

/-- The non-empty string value of a delta object's `stop_reason` field. -/
def stopStr (d : List (String × Json)) : Option String :=
  match getField d "stop_reason" with
  | some (.str sr) => if sr ≠ "" then some sr else none
  | _ => none

/-- The non-empty string stop_reason carried by a `message_delta` event's
delta object, if any (the overwrite condition of `parseStreamingChunks`:
delta must type-assert to a map, stop_reason to a non-empty string). -/
def deltaStop (fs : List (String × Json)) : Option String :=
  match getField fs "delta" with
  | some (.obj d) => stopStr d
  | _ => none

/-- One step of `parseStreamingChunks`: accumulate content block types (with
`tool_use=NAME` rendering) from `content_block_start` events and overwrite
the stop reason with each non-empty `message_delta` stop_reason. -/
def stepChunk (acc : List String × String) (chunk : Option Json) :
    List String × String :=
  match chunk with
  | some (.obj fs) =>
    let eventType := asStr (getField fs "type")
    if eventType = "content_block_start" then
      match getField fs "content_block" with
      | some (.obj cb) =>
        match getField cb "type" with
        | some (.str t) =>
          let t :=
            if t = "tool_use" then
              match getField cb "name" with
              | some (.str n) => if n ≠ "" then "tool_use=" ++ n else t
              | _ => t
            else t
          (acc.1 ++ [t], acc.2)
        | _ => acc
      | _ => acc
    else if eventType = "message_delta" then
      match deltaStop fs with
      | some sr => (acc.1, sr)
      | none => acc
    else acc
  | _ => acc

/-- parseStreamingChunks extracts content types and stop_reason from the SSE
streaming chunks. -/
def parseStreamingChunks (chunks : List (Option Json)) :
    List String × String :=
  chunks.foldl stepChunk ([], "")

/-- In-progress content block of the streaming reconstruction. -/
structure SBlock where
  btype : String
  text : String
  thinking : String
  input : String
  bid : String
  name : String
deriving Repr

def emptySBlock : SBlock := ⟨"", "", "", "", "", ""⟩

/-- Grow the block list with zero blocks until it has length at least `n`
(`for len(blocks) <= int(idx) { blocks = append(blocks, contentBlock{}) }`). -/
def growTo (l : List SBlock) (n : Nat) : List SBlock :=
  l ++ List.replicate (n - l.length) emptySBlock

/-- Update the block at index `i` (no-op when out of range, which cannot
happen at the call sites). -/
def updateAt (i : Nat) (f : SBlock → SBlock) (l : List SBlock) :
    List SBlock :=
  l.set i (f (l.getD i emptySBlock))

/-- One step of `reconstructStreamingResponse`'s event replay. -/
def stepRecon (blocks : List SBlock) (chunk : Option Json) : List SBlock :=
  match chunk with
  | some (.obj fs) =>
    let eventType := asStr (getField fs "type")
    if eventType = "content_block_start" then
      let i := asIndex (getField fs "index")
      let blocks := growTo blocks (i + 1)
      match getField fs "content_block" with
      | some (.obj cb) =>
        updateAt i
          (fun b =>
            let b := { b with
              btype := asStr (getField cb "type"),
              bid := asStr (getField cb "id"),
              name := asStr (getField cb "name") }
            let b :=
              match getField cb "text" with
              | some (.str t) => { b with text := t }
              | _ => b
            match getField cb "thinking" with
            | some (.str t) => { b with thinking := t }
            | _ => b)
          blocks
      | _ => blocks
    else if eventType = "content_block_delta" then
      let i := asIndex (getField fs "index")
      if i < blocks.length then
        match getField fs "delta" with
        | some (.obj d) =>
          let deltaType := asStr (getField d "type")
          if deltaType = "text_delta" then
            match getField d "text" with
            | some (.str t) =>
              updateAt i (fun b => { b with text := b.text ++ t }) blocks
            | _ => blocks
          else if deltaType = "thinking_delta" then
            match getField d "thinking" with
            | some (.str t) =>
              updateAt i (fun b => { b with thinking := b.thinking ++ t })
                blocks
            | _ => blocks
          else if deltaType = "input_json_delta" then
            match getField d "partial_json" with
            | some (.str t) =>
              updateAt i (fun b => { b with input := b.input ++ t }) blocks
            | _ => blocks
          else blocks
        | _ => blocks
      else blocks
    else blocks
  | _ => blocks

/-- Serialize one accumulated block into its final content block shape.
`jparse` is the JSON text parser applied to the accumulated `input`
fragments of a tool_use block (an external stdlib dependency, abstracted;
parse failure falls back to the raw string). -/
def finalizeBlock (jparse : String → Option Json) (b : SBlock) : Json :=
  if b.btype = "text" then
    .obj [("type", .str b.btype), ("text", .str b.text)]
  else if b.btype = "thinking" then
    .obj [("type", .str b.btype), ("thinking", .str b.thinking)]
  else if b.btype = "tool_use" then
    .obj [("type", .str b.btype), ("id", .str b.bid), ("name", .str b.name),
      ("input",
        match jparse b.input with
        | some j => j
        | none => .str b.input)]
  else .obj [("type", .str b.btype)]

/-- reconstructStreamingResponse builds the response message from the SSE
streaming chunks.  When no block was ever started the content slice stays
nil and `json.Marshal` renders it as JSON null. -/
def reconstructStreamingResponse (jparse : String → Option Json)
    (chunks : List (Option Json)) : Json :=
  let blocks := chunks.foldl stepRecon []
  let content := blocks.map (finalizeBlock jparse)
  .obj [("role", .str "assistant"),
        ("content", if content.isEmpty then Json.null else Json.arr content)]

/-- extractNonStreamingResponse extracts the response message from a
non-streaming response body, rejecting (`none`) an empty role and empty,
null or empty-array content. -/
def extractNonStreamingResponse (body : Json) : Option Json :=
  match body with
  | .obj fs =>
    let roleParsed :=
      match getField fs "role" with
      | none => some ""
      | some .null => some ""
      | some (.str r) => some r
      | some _ => none
    match roleParsed with
    | none => none
    | some role =>
      match getField fs "content" with
      | none => none
      | some c =>
        if role = "" then none
        else
          match c with
          | .null => none
          | .arr [] => none
          | _ => some (.obj [("role", .str role), ("content", c)])
  | _ => none

/-- Response metadata destined for the `requests_context` row. -/
structure ResponseMetadata where
  statusCode : Option Int
  streaming : Option Nat
  stopReason : Option String
  responseID : Option String
  responseRole : Option String
  responseSignature : Option String
deriving Repr

/-- Unmarshal of a string-typed field of the response body struct: missing
or null gives "", non-strings are an unmarshal error. -/
def parseStrField (fs : List (String × Json)) (k : String) : Option String :=
  match getField fs k with
  | none => some ""
  | some .null => some ""
  | some (.str s) => some s
  | some _ => none

/-- Unmarshal of one response content block into
`struct{Type, Name string}`, already rendered as a signature item
(`tool_use=NAME` when a name is present). -/
def parseBlockTypeName (x : Json) : Option String :=
  match x with
  | .obj fs => do
    let t ← parseStrField fs "type"
    let n ← parseStrField fs "name"
    pure (if t = "tool_use" ∧ n ≠ "" then "tool_use=" ++ n else t)
  | .null => some ""
  | _ => none

/-- Unmarshal of the buffered response body into
`struct{StopReason, ID, Role string; Content []struct{Type, Name string}}`:
yields (stop_reason, id, role, rendered content types) or `none` on error. -/
def parseBodyMeta (b : Json) :
    Option (String × String × String × List String) :=
  match b with
  | .obj fs => do
    let sr ← parseStrField fs "stop_reason"
    let rid ← parseStrField fs "id"
    let role ← parseStrField fs "role"
    let cts ←
      match getField fs "content" with
      | none => some []
      | some .null => some []
      | some (.arr xs) => xs.mapM parseBlockTypeName
      | some _ => none
    pure (sr, rid, role, cts)
  | .null => some ("", "", "", [])
  | _ => none

/-- Stop reason derived from the buffered body alone (empty string treated
as absent, as in the source). -/
def bodyStopReason (body : Option Json) : Option String :=
  match body with
  | none => none
  | some b =>
    match parseBodyMeta b with
    | some (sr, _, _, _) => if sr ≠ "" then some sr else none
    | none => none

/-- extractResponseMetadata parses the captured response to extract the
metadata columns of `requests_context`, falling back to the streaming
chunks when the buffered body yielded no signature or stop reason. -/
def extractResponseMetadata (response : Option CapturedResponse) :
    ResponseMetadata :=
  match response with
  | none => ⟨none, none, none, none, none, none⟩
  | some resp =>
    let statusCode := if resp.statusCode ≠ 0 then some resp.statusCode else none
    let streaming := some (if resp.isStreaming then (1 : Nat) else 0)
    let bodyFields :=
      match resp.body with
      | some b => parseBodyMeta b
      | none => none
    let stopReason := bodyStopReason resp.body
    let responseID :=
      match bodyFields with
      | some (_, rid, _, _) => if rid ≠ "" then some rid else none
      | none => none
    let responseRole :=
      match bodyFields with
      | some (_, _, role, _) => if role ≠ "" then some role else none
      | none => none
    let responseSignature :=
      match bodyFields with
      | some (_, _, _, cts) =>
        if cts ≠ [] then some (strJoin cts) else none
      | none => none
    if (responseSignature.isNone || stopReason.isNone) &&
        !resp.streamingChunks.isEmpty then
      let parsed := parseStreamingChunks resp.streamingChunks
      let responseSignature :=
        if responseSignature.isNone ∧ parsed.1 ≠ [] then
          some (strJoin parsed.1)
        else responseSignature
      let stopReason :=
        if stopReason.isNone ∧ parsed.2 ≠ "" then some parsed.2
        else stopReason
      ⟨statusCode, streaming, stopReason, responseID, responseRole,
        responseSignature⟩
    else
      ⟨statusCode, streaming, stopReason, responseID, responseRole,
        responseSignature⟩

/-! ### The store (SQLite tables as lists of rows) -/

/-- One row of `message_content` (a CanonicalMessage).  `created_at`
(a wall-clock default) is not modelled. -/
structure ContentRow where
  id : Nat
  hash : String
  role : String
  signature : String
  content : String
  tokenEstimate : Nat
  createdBy : String
deriving DecidableEq, Repr

/-- One row of `messages` (a MessagePosition), primary key
`(reqId, pos)`. -/
structure MessageRow where
  reqId : String
  pos : Nat
  timestamp : Int
  hash : String
  messageId : Nat
  kind : Nat
deriving DecidableEq, Repr

/-- One row of `requests_context` (an ExchangeContext), primary key
`reqId`. -/
structure ContextRow where
  reqId : String
  timestamp : Int
  lastMessageId : Nat
  context : String
  newContext : String
  contextMsgCount : Nat
  statusCode : Option Int
  streaming : Option Nat
  stopReason : Option String
  responseId : Option String
  responseRole : Option String
  responseSignature : Option String
  responseMessageId : Option Nat
  systemTokens : Nat
  toolsTokens : Nat
deriving DecidableEq, Repr

/-- The indexing store: the three tables plus the next fresh
`message_content` id (INTEGER PRIMARY KEY assignment). -/
structure Store where
  contents : List ContentRow
  messages : List MessageRow
  contexts : List ContextRow
  nextId : Nat
deriving DecidableEq, Repr

def emptyStore : Store := ⟨[], [], [], 1⟩

/-- Dedup lookup-then-insert into `message_content` (the loop body of
`IndexRequest` around the `lookupStmt` / `insertContentStmt` pair): returns
the existing id on a hash hit, otherwise inserts a fresh row and returns its
new id. -/
def intern (enc : Enc) (st : Store) (msgRaw : Json) (role : String)
    (content : Option Json) (requestID : String) : Store × Nat :=
  let normalizedMsg := normalizeMessage msgRaw
  let messageHash := sha256Hash (serializeJson normalizedMsg)
  match st.contents.find? (fun r => r.hash == messageHash) with
  | some r => (st, r.id)
  | none =>
    let signature := computeSignature content
    let tokenEstimate := estimateTokens enc normalizedMsg
    let id := st.nextId
    ({ st with
        contents := st.contents ++
          [⟨id, messageHash, role, signature,
            serializeJson normalizedMsg, tokenEstimate, requestID⟩],
        nextId := id + 1 },
      id)

/-- The per-message loop of `IndexRequest`: parse, intern, insert the
`messages` row (kind 1 for the last message), accumulate the id list and the
running `lastMessageID`.  A parse failure or a `(id, position)` primary-key
conflict aborts the transaction. -/
def processMessages (enc : Enc) (requestID : String) (timestamp : Int)
    (numMessages : Nat) :
    List Json → Nat → Store → List Nat → Nat →
      Except String (Store × List Nat × Nat)
  | [], _, st, ids, lastId => .ok (st, ids, lastId)
  | msgRaw :: rest, msgPos, st, ids, _ =>
    match parseMessage msgRaw with
    | none => .error ("failed to parse message " ++ toString msgPos)
    | some (role, content) =>
      let interned := intern enc st msgRaw role content requestID
      let st := interned.1
      let messageID := interned.2
      if st.messages.any
          (fun r => r.reqId == requestID && r.pos == msgPos) then
        .error "failed to insert message"
      else
        let kind := if msgPos = numMessages - 1 then 1 else 0
        let st := { st with
          messages := st.messages ++
            [⟨requestID, msgPos, timestamp,
              sha256Hash (canonicalBytes msgRaw), messageID, kind⟩] }
        processMessages enc requestID timestamp numMessages rest
          (msgPos + 1) st (ids ++ [messageID]) messageID

/-- The buffered-body half of the response handling: the message extracted
from `body`, when the body is present and usable. -/
def bodyResponseMsg : Option Json → Option Json
  | some b => extractNonStreamingResponse b
  | none => none

/-- The response handling block of `IndexRequest` (lines picking the
buffered body first and the streaming reconstruction as fallback). -/
def buildResponseMsg (jparse : String → Option Json)
    (response : Option CapturedResponse) : Option Json :=
  match response with
  | none => none
  | some resp =>
    match bodyResponseMsg resp.body with
    | some m => some m
    | none =>
      if resp.streamingChunks.isEmpty then none
      else some (reconstructStreamingResponse jparse resp.streamingChunks)

/-- Intern the reconstructed response message, if any, yielding the
`response_message_id` column. -/
def internResponse (enc : Enc) (jparse : String → Option Json) (st : Store)
    (requestID : String) (response : Option CapturedResponse) :
    Store × Option Nat :=
  match buildResponseMsg jparse response with
  | none => (st, none)
  | some responseMsg =>
    match parseMessage responseMsg with
    | none => (st, none)
    | some (role, content) =>
      let interned := intern enc st responseMsg role content requestID
      (interned.1, some interned.2)

/-- The body of `IndexRequest` inside the transaction: everything between
`tx.Begin()` and `tx.Commit()`, plus the pre-transaction parsing.  An
`.error` result corresponds to a rollback. -/
def indexRequestTx (enc : Enc) (jparse : String → Option Json) (st : Store)
    (requestID : String) (timestamp : Int) (body : Json)
    (response : Option CapturedResponse) : Except String Store :=
  let meta := extractResponseMetadata response
  match parseRequest body with
  | none => .error "failed to parse request body"
  | some req =>
    if req.messages.isEmpty then .ok st
    else
      let systemTokens := estimateSystemTokens enc req.system
      let toolsTokens := estimateToolsTokens enc req.tools
      match processMessages enc requestID timestamp req.messages.length
          req.messages 0 st [] 0 with
      | .error e => .error e
      | .ok (st, contextIDs, lastMessageID) =>
        let context :=
          if contextIDs.length > 1 then idsJoin contextIDs.dropLast else ""
        let contextMsgCount :=
          if contextIDs.length > 1 then contextIDs.length - 1 else 0
        let newContext := idsJoin contextIDs
        let afterResp := internResponse enc jparse st requestID response
        let st := afterResp.1
        let responseMessageID := afterResp.2
        if st.contexts.any (fun r => r.reqId == requestID) then
          .error "failed to insert requests_context"
        else
          .ok { st with
            contexts := st.contexts ++
              [⟨requestID, timestamp, lastMessageID, context, newContext,
                contextMsgCount, meta.statusCode, meta.streaming,
                meta.stopReason, meta.responseID, meta.responseRole,
                meta.responseSignature, responseMessageID, systemTokens,
                toolsTokens⟩] }

/-- IndexRequest: runs the transactional body and rolls back to the input
store on error (`defer tx.Rollback()`), returning the committed store and an
optional error. -/
def indexRequest (enc : Enc) (jparse : String → Option Json) (st : Store)
    (requestID : String) (timestamp : Int) (body : Json)
    (response : Option CapturedResponse) : Store × Option String :=
  match indexRequestTx enc jparse st requestID timestamp body response with
  | .ok st' => (st', none)
  | .error e => (st, some e)

/-! ### Incremental scheduler (cli/index.go) and conversation search -/

/-- One row of the raw `requests` capture table (id and timestamp are all
the scheduler reads). -/
structure RequestRef where
  rid : String
  timestamp : Int
deriving DecidableEq, Repr

/-- `ORDER BY timestamp` (ascending).  SQL does not promise a stable order
among equal keys; insertion sort realizes one admissible order. -/
def sortByTs {α : Type} (f : α → Int) (l : List α) : List α :=
  List.insertionSort (fun a b => f a ≤ f b) l

/-- fetchAllRequestIDs: every captured request, oldest timestamp first. -/
def fetchAllRequestIDs (requests : List RequestRef) : List RequestRef :=
  sortByTs RequestRef.timestamp requests

/-- `SELECT MAX(timestamp) FROM requests_context`; an empty table yields
NULL, whose scan into a string errors in the source (`none` here). -/
def maxCtxTimestamp (contexts : List ContextRow) : Option Int :=
  match contexts with
  | [] => none
  | c :: cs => some (cs.foldl (fun m r => max m r.timestamp) c.timestamp)

/-- fetchNewRequestIDs: requests at most 10 minutes (600 s) older than the
newest indexed timestamp and not yet present in `requests_context`, oldest
first; with an empty `requests_context` table it degrades to
`fetchAllRequestIDs`. -/
def fetchNewRequestIDs (requests : List RequestRef)
    (contexts : List ContextRow) : List RequestRef :=
  match maxCtxTimestamp contexts with
  | none => fetchAllRequestIDs requests
  | some maxTs =>
    sortByTs RequestRef.timestamp
      (requests.filter (fun r =>
        (maxTs - 600 ≤ r.timestamp) &&
        contexts.all (fun c => c.reqId ≠ r.rid)))

/-- strings.Split with separator "," on the character list (auxiliary). -/
def splitCommaAux : List Char → List Char → List String
  | [], acc => [String.mk acc.reverse]
  | c :: cs, acc =>
    if c = ',' then String.mk acc.reverse :: splitCommaAux cs []
    else splitCommaAux cs (c :: acc)

/-- strings.Split(s, ","): the empty string yields [""], like Go. -/
def splitComma (s : String) : List String :=
  splitCommaAux s.data []

/-- computeContextPrefix pops elements from the comma-joined context to
create a search prefix: 2 when the list has at least 4 elements, else 1 when
at least 2, else 0. -/
def computeContextPrefix (context : String) : String :=
  if context = "" then ""
  else
    let parts := splitComma context
    let popCount :=
      if parts.length ≥ 4 then 2 else if parts.length ≥ 2 then 1 else 0
    let parts :=
      if popCount > 0 ∧ parts.length > popCount then
        parts.take (parts.length - popCount)
      else parts
    strJoin parts

/-- The row filter of FindConversationsByPrefix:
`rc.context LIKE pfx || ',%' OR rc.context = pfx` (the pattern is
wildcard-free for id-list prefixes, so LIKE is plain string-prefix
matching). -/
def likeCtxMatch (pfx : String) (c : String) : Bool :=
  List.isPrefixOf (pfx.data ++ [',']) c.data || c == pfx

/-- FindConversationsByPrefix: the `requests_context` rows matching the
prefix pattern, ordered by timestamp ascending (the joined usage columns are
out of scope). -/
def FindConversationsByPrefix (db : List ContextRow) (pfx : String) :
    List ContextRow :=
  sortByTs ContextRow.timestamp (db.filter (fun r => likeCtxMatch pfx r.context))

/-! ### Derived notions and concrete inputs used by the theorems -/

/-- Event type of a chunk (the discriminator the source switches on). -/
def eventTypeOf (c : Option Json) : String :=
  match c with
  | some (.obj fs) => asStr (getField fs "type")
  | _ => ""

/-- The stop reason one chunk contributes: `some sr` exactly when the chunk
is a `message_delta` event whose delta carries a non-empty string
`stop_reason` (the overwrite condition of `parseStreamingChunks`). -/
def stopOfChunk (c : Option Json) : Option String :=
  match c with
  | some (.obj fs) =>
    if asStr (getField fs "type") = "message_delta" then deltaStop fs
    else none
  | _ => none

/-- Lookup of a `message_content` row by id. -/
def lookupContent (st : Store) (i : Nat) : Option ContentRow :=
  st.contents.find? (fun r => r.id == i)

/-- Number of `requests_context` rows carrying a given exchange id. -/
def countContexts (st : Store) (rid : String) : Nat :=
  st.contexts.countP (fun r => r.reqId == rid)

/-- The assistant message the streaming reconstruction yields when no
content block was ever started (Go marshals the nil slice as null). -/
def nullAssistantMsg : Json :=
  .obj [("role", .str "assistant"), ("content", Json.null)]

/-- A wellformed id string: non-empty and comma-free (decimal ids are). -/
def wfIdStr (s : String) : Prop := s ≠ "" ∧ ',' ∉ s.data

/-- A wellformed id-list rendering: every element wellformed. -/
def wfIdList (l : List String) : Prop := ∀ s ∈ l, wfIdStr s

instance (s : String) : Decidable (wfIdStr s) := by
  unfold wfIdStr
  infer_instance

instance (l : List String) : Decidable (wfIdList l) := by
  unfold wfIdList
  infer_instance

/-- Char-level comma join (the `.data` image of `strJoin`). -/
def csJoin : List (List Char) → List Char
  | [] => []
  | [x] => x
  | x :: y :: ys => x ++ ',' :: csJoin (y :: ys)

/-- The pop rule of `computeContextPrefix` expressed on the split list:
drop 2 ids when the list has at least 4, else 1 when at least 2, else 0. -/
def popRule (parts : List String) : List String :=
  if parts.length ≥ 4 then parts.take (parts.length - 2)
  else if parts.length ≥ 2 then parts.take (parts.length - 1)
  else parts

/-- Trivial JSON text parser stand-in used to instantiate the abstract
`jparse` dependency in witnesses (never reached on the witness inputs). -/
def jparse0 : String → Option Json := fun _ => none

/-- Message with string-form content. -/
def msgStrForm : Json := .obj [("role", .str "user"), ("content", .str "hi")]

/-- The same message with single-text-block-array content. -/
def msgArrForm : Json := .obj [("role", .str "user"),
  ("content", .arr [.obj [("type", .str "text"), ("text", .str "hi")]])]

/-- The same message with a `cache_control` hint on its content block. -/
def msgCacheForm : Json := .obj [("role", .str "user"),
  ("content", .arr [.obj [("type", .str "text"), ("text", .str "hi"),
    ("cache_control", .obj [("type", .str "ephemeral")])]])]

/-- Message whose tool_result block carries a `cache_control` key nested
inside its own content array (below the top level). -/
def msgNestedCache : Json := .obj [("role", .str "user"),
  ("content", .arr [.obj [("type", .str "tool_result"),
    ("tool_use_id", .str "t1"),
    ("content", .arr [.obj [("type", .str "text"), ("text", .str "hi"),
      ("cache_control", .obj [("type", .str "ephemeral")])]])]])]

/-- The same message without the nested `cache_control` key. -/
def msgNestedPlain : Json := .obj [("role", .str "user"),
  ("content", .arr [.obj [("type", .str "tool_result"),
    ("tool_use_id", .str "t1"),
    ("content", .arr [.obj [("type", .str "text"),
      ("text", .str "hi")]])]])]

/-- Streaming event: start of a text block at index 0 with empty text. -/
def evStartText : Json := .obj [("type", .str "content_block_start"),
  ("index", .num 0),
  ("content_block", .obj [("type", .str "text"), ("text", .str "")])]

/-- Streaming event: text delta at index 0. -/
def evTextDelta (t : String) : Json :=
  .obj [("type", .str "content_block_delta"), ("index", .num 0),
    ("delta", .obj [("type", .str "text_delta"), ("text", .str t)])]

/-- Streaming event: message_delta carrying a stop reason. -/
def evMessageDelta (sr : String) : Json :=
  .obj [("type", .str "message_delta"),
    ("delta", .obj [("stop_reason", .str sr)])]

/-- Streamed response whose chunks carry two different non-empty stop
reasons (no buffered body). -/
def respTwoStops : CapturedResponse :=
  ⟨200, true, none,
    [some (evMessageDelta "end_turn"), some (evMessageDelta "max_tokens")]⟩

/-- A single-message request body. -/
def reqOneMsg : Json := .obj [("messages", .arr [msgStrForm])]

/-- A three-message request body (the spec's concrete scenario). -/
def reqThreeMsgs : Json := .obj [("messages", .arr [
  .obj [("role", .str "user"), ("content", .str "hi")],
  .obj [("role", .str "assistant"),
    ("content", .arr [.obj [("type", .str "text"), ("text", .str "hello")]])],
  .obj [("role", .str "user"), ("content", .str "how are you")]])]

/-- A request body whose first message fails to unmarshal (a bare number in
the messages array). -/
def reqBadMsg : Json := .obj [("messages", .arr [.num 5])]

/-- A bare `requests_context` row with a given id, timestamp and context
(the remaining columns immaterial to conversation search). -/
def mkCtxRow (rid : String) (ts : Int) (ctx : String) : ContextRow :=
  ⟨rid, ts, 0, ctx, ctx, 0, none, none, none, none, none, none, none, 0, 0⟩

/-- The `message_content` row created for the single message of `reqOneMsg`
(token estimate left symbolic in the tokenizer). -/
def c9Row1 (enc : Enc) : ContentRow :=
  ⟨1, canonicalBytes msgStrForm, "user", "text", canonicalBytes msgStrForm,
    estimateTokens enc (normalizeMessage msgStrForm), "r1"⟩

/-- The `messages` row created for the single message of `reqOneMsg`. -/
def c9MsgRow : MessageRow := ⟨"r1", 0, 0, canonicalBytes msgStrForm, 1, 1⟩

/-- The store after processing the one request message of `reqOneMsg`. -/
def c9St1 (enc : Enc) : Store := ⟨[c9Row1 enc], [c9MsgRow], [], 2⟩

/-- The `message_content` row created for the reconstructed null-content
assistant message. -/
def c9Row2 (enc : Enc) : ContentRow :=
  ⟨2, canonicalBytes nullAssistantMsg, "assistant", "",
    canonicalBytes nullAssistantMsg,
    estimateTokens enc (normalizeMessage nullAssistantMsg), "r1"⟩

/-- The store after also interning the null-content assistant message. -/
def c9St2 (enc : Enc) : Store := ⟨[c9Row1 enc, c9Row2 enc], [c9MsgRow], [], 3⟩

/-! ### Helper lemmas -/

theorem find?_append_of_none {α : Type} (p : α → Bool) (l l' : List α)
    (h : l.find? p = none) : (l ++ l').find? p = l'.find? p := by
  induction l with
  | nil => rfl
  | cons x xs ih =>
    rw [List.find?_cons] at h
    rcases hx : p x with _ | _
    · rw [List.cons_append, List.find?_cons, hx]
      exact ih (by rwa [hx] at h)
    · rw [hx] at h; exact absurd h (by simp)

theorem intern_messages_contexts (enc : Enc) (st : Store) (m : Json)
    (role : String) (content : Option Json) (rid : String) :
    (intern enc st m role content rid).1.messages = st.messages ∧
    (intern enc st m role content rid).1.contexts = st.contexts := by
  simp only [intern]
  split <;> simp

theorem internResponse_messages_contexts (enc : Enc)
    (jparse : String → Option Json) (st : Store) (rid : String)
    (resp : Option CapturedResponse) :
    (internResponse enc jparse st rid resp).1.messages = st.messages ∧
    (internResponse enc jparse st rid resp).1.contexts = st.contexts := by
  unfold internResponse
  cases buildResponseMsg jparse resp with
  | none => exact ⟨rfl, rfl⟩
  | some m =>
    simp only
    cases parseMessage m with
    | none => exact ⟨rfl, rfl⟩
    | some rc => exact intern_messages_contexts enc st m rc.1 rc.2 rid

/-! ### C3 -/

/-- C3: indexing one exchange is atomic.  When `IndexRequest` returns an
error (for example an unparseable request body or an unparseable message in
the array), the transaction is rolled back and the store is exactly as it
was before the call: no `message_content`, `messages` or `requests_context`
row from that call is observable, and already-committed state for other
exchanges is untouched. -/
theorem C3_atomic_rollback (enc : Enc) (jparse : String → Option Json)
    (st : Store) (rid : String) (ts : Int) (body : Json)
    (resp : Option CapturedResponse) (e : String)
    (herr : (indexRequest enc jparse st rid ts body resp).2 = some e) :
    (indexRequest enc jparse st rid ts body resp).1 = st := by
  unfold indexRequest at herr ⊢
  cases h : indexRequestTx enc jparse st rid ts body resp with
  | ok st' => rw [h] at herr; simp at herr
  | error e' => rfl

/-- C3 witness: the rollback theorem applied at two concrete failing calls
(an unparseable request body, and a message that fails to parse) against a
store already holding a committed exchange. -/
theorem C3_atomic_rollback_witness :
    (indexRequest none jparse0
      (indexRequest none jparse0 emptyStore "r0" 5 reqThreeMsgs none).1
      "r1" 7 (Json.str "oops") none).1
      = (indexRequest none jparse0 emptyStore "r0" 5 reqThreeMsgs none).1 ∧
    (indexRequest none jparse0
      (indexRequest none jparse0 emptyStore "r0" 5 reqThreeMsgs none).1
      "r2" 8 reqBadMsg none).1
      = (indexRequest none jparse0 emptyStore "r0" 5 reqThreeMsgs none).1 :=
  ⟨C3_atomic_rollback none jparse0 _ "r1" 7 (Json.str "oops") none
      "failed to parse request body" (by decide),
   C3_atomic_rollback none jparse0 _ "r2" 8 reqBadMsg none
      "failed to parse message 0" (by decide)⟩

/-! ### C5 -/

/-- C5: replaying the streamed form reconstructs content by index.  For the
chunk sequence [text block start at index 0, text_delta "hel", text_delta
"lo"], reconstruction yields the assistant message whose content is the
single block `[{"type":"text","text":"hello"}]` (text deltas append in
order to the block at their index), independently of the tool-input JSON
parser.  The statement compares canonical serializations, which is how
message identity is defined throughout the indexer. -/
theorem C5_streaming_reconstruction (jparse : String → Option Json) :
    serializeJson (reconstructStreamingResponse jparse
        [some evStartText, some (evTextDelta "hel"), some (evTextDelta "lo")])
      = serializeJson (.obj [("role", .str "assistant"),
          ("content", .arr [.obj [("type", .str "text"),
            ("text", .str "hello")]])]) := rfl

/-- C5 witness: the reconstruction theorem at a concrete parser. -/
theorem C5_streaming_reconstruction_witness :
    serializeJson (reconstructStreamingResponse jparse0
        [some evStartText, some (evTextDelta "hel"), some (evTextDelta "lo")])
      = serializeJson (.obj [("role", .str "assistant"),
          ("content", .arr [.obj [("type", .str "text"),
            ("text", .str "hello")]])]) :=
  C5_streaming_reconstruction jparse0

/-! ### C10 -/

/-- C10: normalization strips `cache_control` only from the top-level
elements of the content array.  On `msgNestedCache`, whose only
`cache_control` key sits inside a tool_result block's own content array,
normalization is the identity (the nested key is preserved in the canonical
bytes); hence its canonical bytes differ from those of the otherwise
identical `msgNestedPlain`, and interning the two messages assigns them
different CanonicalMessage ids (1 and 2 on an empty store). -/
theorem C10_nested_cache_control :
    normalizeMessage msgNestedCache = msgNestedCache ∧
    canonicalBytes msgNestedCache ≠ canonicalBytes msgNestedPlain ∧
    (intern none emptyStore msgNestedCache "user" none "r1").2 = 1 ∧
    (intern none
        (intern none emptyStore msgNestedCache "user" none "r1").1
        msgNestedPlain "user" none "r2").2 = 2 := by
  refine ⟨rfl, ?_, rfl, rfl⟩
  decide

/-! ### C2 -/

/-- C2: dedup idempotence.  For any two messages whose canonical byte forms
(role and content after normalization) coincide, interning the first and
then the second — on any store, in either order, possibly from different
exchanges — returns the same CanonicalMessage id.  In particular this covers
raw forms differing only in a `cache_control` field or in string-form versus
single-text-block-array-form content (see the witness). -/
theorem C2_dedup_idempotence (enc : Enc) (st : Store) (m1 m2 : Json)
    (role1 role2 : String) (cont1 cont2 : Option Json) (rid1 rid2 : String)
    (h : canonicalBytes m1 = canonicalBytes m2) :
    (intern enc (intern enc st m1 role1 cont1 rid1).1 m2 role2 cont2 rid2).2
      = (intern enc st m1 role1 cont1 rid1).2 := by
  have hh : sha256Hash (serializeJson (normalizeMessage m2))
      = sha256Hash (serializeJson (normalizeMessage m1)) := h.symm
  simp only [intern, hh]
  cases hfind : st.contents.find?
      (fun r => r.hash == sha256Hash (serializeJson (normalizeMessage m1))) with
  | some r => simp [hfind]
  | none =>
    simp only [hfind]
    rw [find?_append_of_none _ _ _ hfind]
    simp

/-- C2 witness: the dedup theorem applied to the concrete
cache-control pair and to the concrete string-vs-array pair, on the empty
store and across two different exchange ids. -/
theorem C2_dedup_idempotence_witness :
    (intern none (intern none emptyStore msgCacheForm "user" none "r1").1
        msgArrForm "user" none "r2").2
      = (intern none emptyStore msgCacheForm "user" none "r1").2 ∧
    (intern none (intern none emptyStore msgStrForm "user" none "r1").1
        msgArrForm "user" none "r2").2
      = (intern none emptyStore msgStrForm "user" none "r1").2 :=
  ⟨C2_dedup_idempotence none emptyStore msgCacheForm msgArrForm
      "user" "user" none none "r1" "r2" (by decide),
   C2_dedup_idempotence none emptyStore msgStrForm msgArrForm
      "user" "user" none none "r1" "r2" (by decide)⟩

/-! ### processMessages support lemmas -/

theorem processMessages_ok_spec (enc : Enc) (rid : String) (ts : Int)
    (n : Nat) :
    ∀ (msgs : List Json) (pos : Nat) (st : Store) (ids : List Nat)
      (last : Nat) (out : Store × List Nat × Nat),
      processMessages enc rid ts n msgs pos st ids last = .ok out →
      (msgs = [] → out.2.1 = ids ∧ out.2.2 = last) ∧
      (msgs ≠ [] → out.2.1.length = ids.length + msgs.length ∧
        out.2.1.getLast? = some out.2.2) := by
  intro msgs
  induction msgs with
  | nil =>
    intro pos st ids last out h
    simp only [processMessages] at h
    injection h with h
    subst h
    exact ⟨fun _ => ⟨rfl, rfl⟩, fun hne => absurd rfl hne⟩
  | cons m rest ih =>
    intro pos st ids last out h
    simp only [processMessages] at h
    cases hpm : parseMessage m with
    | none => rw [hpm] at h; exact absurd h (by simp)
    | some rc =>
      rw [hpm] at h
      obtain ⟨role, content⟩ := rc
      simp only at h
      split at h
      · exact absurd h (by simp)
      · have spec := ih (pos + 1) _ _ _ _ h
        refine ⟨fun hc => absurd hc (by simp), fun _ => ?_⟩
        rcases eq_or_ne rest [] with hrest | hrest
        · subst hrest
          obtain ⟨h1, h2⟩ := spec.1 rfl
          rw [h1, h2]
          simp
        · obtain ⟨h1, h2⟩ := spec.2 hrest
          refine ⟨?_, h2⟩
          rw [h1]
          simp
          omega

theorem processMessages_state (enc : Enc) (rid : String) (ts : Int)
    (n : Nat) :
    ∀ (msgs : List Json) (pos : Nat) (st : Store) (ids : List Nat)
      (last : Nat) (out : Store × List Nat × Nat),
      processMessages enc rid ts n msgs pos st ids last = .ok out →
      out.1.contexts = st.contexts ∧
      ∀ r ∈ st.messages, r ∈ out.1.messages := by
  intro msgs
  induction msgs with
  | nil =>
    intro pos st ids last out h
    simp only [processMessages] at h
    injection h with h
    subst h
    exact ⟨rfl, fun r hr => hr⟩
  | cons m rest ih =>
    intro pos st ids last out h
    simp only [processMessages] at h
    cases hpm : parseMessage m with
    | none => rw [hpm] at h; exact absurd h (by simp)
    | some rc =>
      rw [hpm] at h
      obtain ⟨role, content⟩ := rc
      simp only at h
      split at h
      · exact absurd h (by simp)
      · have hint := intern_messages_contexts enc st m role content rid
        have hrec := ih (pos + 1) _ _ _ _ h
        constructor
        · rw [hrec.1]; exact hint.2
        · intro r hr
          apply hrec.2
          simp only [List.mem_append, hint.1]
          exact Or.inl hr

theorem processMessages_first_row (enc : Enc) (rid : String) (ts : Int)
    (n : Nat) (m : Json) (rest : List Json) (pos : Nat) (st : Store)
    (ids : List Nat) (last : Nat) (out : Store × List Nat × Nat)
    (h : processMessages enc rid ts n (m :: rest) pos st ids last = .ok out) :
    (∃ role content, parseMessage m = some (role, content)) ∧
    ∃ r ∈ out.1.messages, r.reqId = rid ∧ r.pos = pos := by
  simp only [processMessages] at h
  cases hpm : parseMessage m with
  | none => rw [hpm] at h; exact absurd h (by simp)
  | some rc =>
    rw [hpm] at h
    obtain ⟨role, content⟩ := rc
    simp only at h
    split at h
    · exact absurd h (by simp)
    · refine ⟨⟨role, content, rfl⟩, ?_⟩
      have hrec := processMessages_state enc rid ts n _ _ _ _ _ _ h
      refine ⟨⟨rid, pos, ts, sha256Hash (canonicalBytes m),
        (intern enc st m role content rid).2,
        if pos = n - 1 then 1 else 0⟩, ?_, rfl, rfl⟩
      apply hrec.2
      simp

/-! ### C4 -/

/-- C4: for every ExchangeContext row written by a successful IndexRequest
on a non-empty messages array, `newContext` is `context` with exactly one
additional id appended, and that id is the row's `lastMessageId`; when the
request had exactly one message, `context` is the empty string with
`contextMsgCount` 0 and `newContext` holds exactly one id. -/
theorem C4_context_newContext (enc : Enc) (jparse : String → Option Json)
    (st : Store) (rid : String) (ts : Int) (body : Json)
    (resp : Option CapturedResponse) (st' : Store) (req : ParsedRequest)
    (hok : indexRequest enc jparse st rid ts body resp = (st', none))
    (hreq : parseRequest body = some req) (hne : req.messages ≠ []) :
    ∃ row ids0,
      st'.contexts = st.contexts ++ [row] ∧
      row.context = idsJoin ids0 ∧
      row.newContext = idsJoin (ids0 ++ [row.lastMessageId]) ∧
      row.contextMsgCount = ids0.length ∧
      (req.messages.length = 1 →
        ids0 = [] ∧ row.context = "" ∧ row.contextMsgCount = 0 ∧
        row.newContext = idsJoin [row.lastMessageId]) := by
  have htx : indexRequestTx enc jparse st rid ts body resp = .ok st' := by
    unfold indexRequest at hok
    cases h : indexRequestTx enc jparse st rid ts body resp with
    | ok s => rw [h] at hok; injection hok with h1 h2; rw [h1]
    | error e => rw [h] at hok; simp at hok
  unfold indexRequestTx at htx
  simp only [hreq] at htx
  rw [if_neg (fun hc => hne (List.isEmpty_iff.mp hc))] at htx
  cases hpm : processMessages enc rid ts req.messages.length req.messages 0
      st [] 0 with
  | error e => rw [hpm] at htx; exact absurd htx (by simp)
  | ok outp =>
    rw [hpm] at htx
    obtain ⟨stA, ctxIDs, lastId⟩ := outp
    simp only at htx
    split at htx
    · exact absurd htx (by simp)
    · have spec := (processMessages_ok_spec enc rid ts req.messages.length
        req.messages 0 st [] 0 _ hpm).2 hne
      simp only [List.length_nil, Nat.zero_add] at spec
      obtain ⟨hlen, hlast⟩ := spec
      have hctxpres := (processMessages_state enc rid ts req.messages.length
        req.messages 0 st [] 0 _ hpm).1
      simp only at hctxpres hlen hlast
      injection htx with htx
      subst htx
      have hic := (internResponse_messages_contexts enc jparse stA rid resp).2
      rcases eq_or_ne req.messages.length 1 with h1 | h1
      · -- exactly one message
        have hl1 : ctxIDs.length = 1 := by rw [hlen, h1]
        obtain ⟨x, hx⟩ := List.length_eq_one.mp hl1
        subst hx
        have hx2 : lastId = x := by
          simp only [List.getLast?_singleton, Option.some.injEq] at hlast
          exact hlast.symm
        subst hx2
        simp only [hic, hctxpres]
        refine ⟨_, [], rfl, ?_, ?_, ?_, ?_⟩
        · simp [idsJoin, strJoin]
        · simp
        · simp
        · intro _
          exact ⟨rfl, by simp [idsJoin, strJoin], by simp, by simp⟩
      · -- at least two messages
        have hgt : ctxIDs.length > 1 := by
          rw [hlen]
          have h0 : req.messages.length ≠ 0 := by
            simpa using hne
          omega
        have hsplit : ctxIDs.dropLast ++ [lastId] = ctxIDs :=
          List.dropLast_append_getLast? lastId (by rw [hlast]; rfl)
        simp only [hic, hctxpres]
        refine ⟨_, ctxIDs.dropLast, rfl, ?_, ?_, ?_, ?_⟩
        · simp only [if_pos hgt]
        · simp only [hsplit, if_pos hgt]
        · simp only [if_pos hgt, List.length_dropLast]
        · intro hc; exact absurd hc h1

/-- C4 witness: the context/newContext theorem applied to the concrete
three-message request of the spec's scenario. -/
theorem C4_context_newContext_witness :
    ∃ row ids0,
      (indexRequest none jparse0 emptyStore "r1" 10 reqThreeMsgs none).1.contexts
        = emptyStore.contexts ++ [row] ∧
      row.context = idsJoin ids0 ∧
      row.newContext = idsJoin (ids0 ++ [row.lastMessageId]) ∧
      row.contextMsgCount = ids0.length :=
  match C4_context_newContext none jparse0 emptyStore "r1" 10 reqThreeMsgs none
      (indexRequest none jparse0 emptyStore "r1" 10 reqThreeMsgs none).1
      ⟨[.obj [("role", .str "user"), ("content", .str "hi")],
        .obj [("role", .str "assistant"),
          ("content", .arr [.obj [("type", .str "text"),
            ("text", .str "hello")]])],
        .obj [("role", .str "user"), ("content", .str "how are you")]],
        none, none⟩
      (by decide) rfl (List.cons_ne_nil _ _) with
  | ⟨row, ids0, h1, h2, h3, h4, _⟩ => ⟨row, ids0, h1, h2, h3, h4⟩

/-! ### C6 -/

theorem getLastD_cons_eq {α : Type} (v s : α) (l : List α) :
    ((v :: l).getLast?).getD s = (l.getLast?).getD v := by
  cases l with
  | nil => rfl
  | cons b l =>
    rw [List.getLast?_cons_cons]
    obtain ⟨x, hx⟩ : ∃ x, (b :: l).getLast? = some x :=
      ⟨_, List.getLast?_eq_getLast_of_ne_nil (List.cons_ne_nil b l)⟩
    rw [hx]
    rfl

theorem stepChunk_snd (acc : List String × String) (c : Option Json) :
    (stepChunk acc c).2 = (stopOfChunk c).getD acc.2 := by
  cases c with
  | none => rfl
  | some j =>
    cases j with
    | obj fs =>
      simp only [stepChunk, stopOfChunk]
      by_cases h1 : asStr (getField fs "type") = "content_block_start"
      · rw [if_pos h1,
          if_neg (fun hc => by rw [h1] at hc; exact absurd hc (by decide))]
        split
        · split <;> rfl
        · rfl
      · by_cases h2 : asStr (getField fs "type") = "message_delta"
        · rw [if_neg h1, if_pos h2, if_pos h2]
          cases hd : deltaStop fs with
          | none => rfl
          | some sr => rfl
        · rw [if_neg h1, if_neg h2, if_neg h2]
          rfl
    | null => rfl
    | bool b => rfl
    | num n => rfl
    | str s => rfl
    | arr xs => rfl

theorem parseStreamingChunks_snd (chunks : List (Option Json)) :
    ∀ acc : List String × String,
      (chunks.foldl stepChunk acc).2
        = ((chunks.filterMap stopOfChunk).getLast?).getD acc.2 := by
  induction chunks with
  | nil => intro acc; rfl
  | cons c cs ih =>
    intro acc
    rw [List.foldl_cons, ih]
    cases hc : stopOfChunk c with
    | none =>
      rw [List.filterMap_cons_none hc, stepChunk_snd, hc]
      rfl
    | some v =>
      rw [List.filterMap_cons_some hc, stepChunk_snd, hc,
        getLastD_cons_eq]
      rfl

theorem stopStr_ne_empty (d : List (String × Json)) (sr : String)
    (h : stopStr d = some sr) : sr ≠ "" := by
  unfold stopStr at h
  cases hs : getField d "stop_reason" with
  | none => rw [hs] at h; exact absurd h (by simp)
  | some j3 =>
    rw [hs] at h
    cases j3 with
    | str s =>
      replace h : (if s ≠ "" then some s else none) = some sr := h
      by_cases hsr : s ≠ ""
      · rw [if_pos hsr] at h
        injection h with h
        rw [← h]; exact hsr
      · rw [if_neg hsr] at h; exact absurd h (by simp)
    | null => exact absurd h (by simp)
    | bool b => exact absurd h (by simp)
    | num n => exact absurd h (by simp)
    | arr xs => exact absurd h (by simp)
    | obj o => exact absurd h (by simp)

theorem deltaStop_ne_empty (fs : List (String × Json)) (sr : String)
    (h : deltaStop fs = some sr) : sr ≠ "" := by
  unfold deltaStop at h
  cases hd : getField fs "delta" with
  | none => rw [hd] at h; exact absurd h (by simp)
  | some j2 =>
    rw [hd] at h
    cases j2 with
    | obj d =>
      replace h : stopStr d = some sr := h
      exact stopStr_ne_empty d sr h
    | null => exact absurd h (by simp)
    | bool b => exact absurd h (by simp)
    | num n => exact absurd h (by simp)
    | str s => exact absurd h (by simp)
    | arr xs => exact absurd h (by simp)

theorem stopOfChunk_ne_empty (c : Option Json) (sr : String)
    (h : stopOfChunk c = some sr) : sr ≠ "" := by
  unfold stopOfChunk at h
  cases c with
  | none => exact absurd h (by simp)
  | some j =>
    cases j with
    | obj fs =>
      replace h :
          (if asStr (getField fs "type") = "message_delta" then deltaStop fs
            else none) = some sr := h
      split at h
      · exact deltaStop_ne_empty fs sr h
      · exact absurd h (by simp)
    | null => exact absurd h (by simp)
    | bool b => exact absurd h (by simp)
    | num n => exact absurd h (by simp)
    | str s => exact absurd h (by simp)
    | arr xs => exact absurd h (by simp)

/-- C6 counterexample: a streamed response whose chunks carry the non-empty
stop reasons "end_turn" then "max_tokens".  The recorded stop reason is
"max_tokens" — the last non-empty value — not the first one ("end_turn") the
claim asserts. -/
theorem C6_counterexample :
    (extractResponseMetadata (some respTwoStops)).stopReason
        = some "max_tokens" ∧
    (respTwoStops.streamingChunks.filterMap stopOfChunk).head?
        = some "end_turn" ∧
    (some "max_tokens" : Option String) ≠ some "end_turn" :=
  ⟨by decide, by decide, by decide⟩

/-- C6 (amended): for every streamed response whose buffered body yields no
stop reason, the stop reason recorded in the response metadata is the LAST
non-empty `message_delta` stop_reason encountered in chunk order (absent
when there is none). -/
theorem C6_stop_reason_last_wins (resp : CapturedResponse)
    (hb : bodyStopReason resp.body = none) :
    (extractResponseMetadata (some resp)).stopReason
      = (resp.streamingChunks.filterMap stopOfChunk).getLast? := by
  unfold extractResponseMetadata
  simp only [hb]
  cases hch : resp.streamingChunks with
  | nil => simp
  | cons c cs =>
    simp only [List.isEmpty_cons, Option.isNone_none, Bool.or_true,
      Bool.not_false, Bool.and_self, if_true]
    cases hl : ((c :: cs).filterMap stopOfChunk).getLast? with
    | none =>
      have hp2 : (parseStreamingChunks (c :: cs)).2 = "" := by
        unfold parseStreamingChunks
        rw [parseStreamingChunks_snd, hl]
        rfl
      simp [hp2]
    | some v =>
      have hv : v ≠ "" := by
        obtain ⟨cx, hcx, hcs⟩ :=
          List.mem_filterMap.mp (List.mem_of_mem_getLast? hl)
        exact stopOfChunk_ne_empty cx v hcs
      have hp2 : (parseStreamingChunks (c :: cs)).2 = v := by
        unfold parseStreamingChunks
        rw [parseStreamingChunks_snd, hl]
        rfl
      simp [hp2, hv]

/-- C6 witness for the amended claim: at the two-stop-reason response the
recorded stop reason equals the last element of the chunk-derived stop
reason list. -/
theorem C6_stop_reason_last_wins_witness :
    (extractResponseMetadata (some respTwoStops)).stopReason
      = (respTwoStops.streamingChunks.filterMap stopOfChunk).getLast? :=
  C6_stop_reason_last_wins respTwoStops rfl

/-! ### C7 -/

theorem sortByTs_sorted {α : Type} (f : α → Int) (l : List α) :
    List.Sorted (fun a b => f a ≤ f b) (sortByTs f l) := by
  haveI ht : IsTotal α (fun a b => f a ≤ f b) :=
    ⟨fun a b => le_total (f a) (f b)⟩
  haveI htr : IsTrans α (fun a b => f a ≤ f b) :=
    ⟨fun _ _ _ hab hbc => le_trans hab hbc⟩
  exact List.sorted_insertionSort _ l

theorem sortByTs_mem {α : Type} (f : α → Int) (l : List α) (x : α) :
    x ∈ sortByTs f l ↔ x ∈ l :=
  List.mem_insertionSort _

/-- C7: incremental scheduling.  `fetchAllRequestIDs` returns every captured
exchange oldest-first.  With a non-empty ExchangeContext table whose newest
timestamp is `maxTs`, `fetchNewRequestIDs` returns, oldest-first, exactly
the captured exchanges that are not already present in the table and whose
timestamp is at least `maxTs - 600` (the 10-minute lookback window); with an
empty table it degrades to `fetchAllRequestIDs`. -/
theorem C7_incremental_scheduler (requests : List RequestRef)
    (contexts : List ContextRow) :
    (contexts = [] →
      fetchNewRequestIDs requests contexts = fetchAllRequestIDs requests) ∧
    (∀ r, r ∈ fetchAllRequestIDs requests ↔ r ∈ requests) ∧
    List.Sorted (fun a b => a.timestamp ≤ b.timestamp)
      (fetchAllRequestIDs requests) ∧
    List.Sorted (fun a b => a.timestamp ≤ b.timestamp)
      (fetchNewRequestIDs requests contexts) ∧
    (∀ maxTs, maxCtxTimestamp contexts = some maxTs →
      ∀ r, r ∈ fetchNewRequestIDs requests contexts ↔
        (r ∈ requests ∧ maxTs - 600 ≤ r.timestamp ∧
          ∀ c ∈ contexts, c.reqId ≠ r.rid)) := by
  refine ⟨?_, ?_, ?_, ?_, ?_⟩
  · intro hc
    subst hc
    rfl
  · intro r
    exact sortByTs_mem _ _ _
  · exact sortByTs_sorted _ _
  · unfold fetchNewRequestIDs
    cases maxCtxTimestamp contexts with
    | none => exact sortByTs_sorted _ _
    | some maxTs => exact sortByTs_sorted _ _
  · intro maxTs hmax r
    unfold fetchNewRequestIDs
    rw [hmax]
    rw [sortByTs_mem, List.mem_filter]
    simp only [Bool.and_eq_true, decide_eq_true_eq, List.all_eq_true,
      ne_eq, decide_not, Bool.not_eq_true]
    constructor
    · rintro ⟨hr, h1, h2⟩
      refine ⟨hr, h1, fun c hc => ?_⟩
      have := h2 c hc
      simpa using this
    · rintro ⟨hr, h1, h2⟩
      refine ⟨hr, h1, fun c hc => ?_⟩
      simpa using h2 c hc

/-- C7 witness: the scheduler theorem applied to a concrete capture table
and context table: with an empty table every exchange is returned; with a
non-empty table only the new request inside the lookback window is
returned. -/
theorem C7_incremental_scheduler_witness :
    fetchNewRequestIDs [⟨"a", 100⟩, ⟨"b", 2000⟩] []
        = fetchAllRequestIDs [⟨"a", 100⟩, ⟨"b", 2000⟩] ∧
    ((⟨"b", 2000⟩ : RequestRef) ∈
        fetchNewRequestIDs [⟨"a", 100⟩, ⟨"b", 2000⟩] [mkCtxRow "a" 1900 ""] ↔
      ((⟨"b", 2000⟩ : RequestRef) ∈
          ([⟨"a", 100⟩, ⟨"b", 2000⟩] : List RequestRef) ∧
        (1900 : Int) - 600 ≤ 2000 ∧
        ∀ c ∈ [mkCtxRow "a" 1900 ""], c.reqId ≠ "b")) :=
  ⟨(C7_incremental_scheduler [⟨"a", 100⟩, ⟨"b", 2000⟩] []).1 rfl,
   (C7_incremental_scheduler [⟨"a", 100⟩, ⟨"b", 2000⟩]
      [mkCtxRow "a" 1900 ""]).2.2.2.2 1900 rfl ⟨"b", 2000⟩⟩

/-! ### C9 -/

theorem stepRecon_nil (c : Option Json)
    (h : eventTypeOf c ≠ "content_block_start") :
    stepRecon [] c = [] := by
  cases c with
  | none => rfl
  | some j =>
    cases j with
    | obj fs =>
      have h' : asStr (getField fs "type") ≠ "content_block_start" := h
      simp only [stepRecon]
      rw [if_neg h']
      by_cases h2 : asStr (getField fs "type") = "content_block_delta"
      · rw [if_pos h2]
        rw [if_neg (by simp)]
      · rw [if_neg h2]
    | null => rfl
    | bool b => rfl
    | num n => rfl
    | str s => rfl
    | arr xs => rfl

theorem foldl_stepRecon_nil (chunks : List (Option Json))
    (h : ∀ c ∈ chunks, eventTypeOf c ≠ "content_block_start") :
    chunks.foldl stepRecon [] = [] := by
  induction chunks with
  | nil => rfl
  | cons c cs ih =>
    rw [List.foldl_cons, stepRecon_nil c (h c (by simp))]
    exact ih (fun x hx => h x (by simp [hx]))

theorem reconstruct_no_start (jparse : String → Option Json)
    (chunks : List (Option Json))
    (h : ∀ c ∈ chunks, eventTypeOf c ≠ "content_block_start") :
    reconstructStreamingResponse jparse chunks = nullAssistantMsg := by
  unfold reconstructStreamingResponse
  rw [foldl_stepRecon_nil chunks h]
  rfl

theorem estimateTokens_nullAssistant (enc : Enc) :
    estimateTokens enc (normalizeMessage nullAssistantMsg) = 0 := by
  cases enc <;> rfl

/-- Shape of a successful `indexRequestTx` in terms of the outcomes of its
three phases (message loop, response interning, context insert). -/
theorem indexRequestTx_eq (enc : Enc) (jparse : String → Option Json)
    (st : Store) (rid : String) (ts : Int) (body : Json)
    (resp : Option CapturedResponse) (req : ParsedRequest) (stA : Store)
    (ids : List Nat) (lastId : Nat) (stB : Store) (rmid : Option Nat)
    (hreq : parseRequest body = some req) (hne' : req.messages ≠ [])
    (hpm : processMessages enc rid ts req.messages.length req.messages 0
      st [] 0 = .ok (stA, ids, lastId))
    (hir : internResponse enc jparse stA rid resp = (stB, rmid))
    (hany : stB.contexts.any (fun r => r.reqId == rid) = false) :
    indexRequestTx enc jparse st rid ts body resp = .ok { stB with
      contexts := stB.contexts ++
        [⟨rid, ts, lastId,
          (if ids.length > 1 then idsJoin ids.dropLast else ""),
          idsJoin ids,
          (if ids.length > 1 then ids.length - 1 else 0),
          (extractResponseMetadata resp).statusCode,
          (extractResponseMetadata resp).streaming,
          (extractResponseMetadata resp).stopReason,
          (extractResponseMetadata resp).responseID,
          (extractResponseMetadata resp).responseRole,
          (extractResponseMetadata resp).responseSignature,
          rmid, estimateSystemTokens enc req.system,
          estimateToolsTokens enc req.tools⟩] } := by
  unfold indexRequestTx
  simp only [hreq]
  rw [if_neg (fun hc => hne' (List.isEmpty_iff.mp hc))]
  simp only [hpm]
  simp only [hir]
  rw [hany]
  rfl

/-- C9 (implicit): a response whose chunk list is non-empty but contains no
`content_block_start` event, and whose buffered body yields no message, is
NOT treated as absent: the streaming reconstruction produces the assistant
message `{"role":"assistant","content":null}` (the nil content slice
marshals as null), which IndexRequest interns as a CanonicalMessage with
empty signature and token estimate 0 and records as `responseMessageId` —
unlike the buffered form, where null or empty-array content is rejected. -/
theorem C9_null_content_interned (enc : Enc) (jparse : String → Option Json)
    (sc : Int) (isStr : Bool) (b : Option Json) (chunks : List (Option Json))
    (hne : chunks ≠ [])
    (hnostart : ∀ c ∈ chunks, eventTypeOf c ≠ "content_block_start")
    (hbody : bodyResponseMsg b = none) :
    reconstructStreamingResponse jparse chunks = nullAssistantMsg ∧
    extractNonStreamingResponse
      (.obj [("role", .str "assistant"), ("content", Json.null)]) = none ∧
    extractNonStreamingResponse
      (.obj [("role", .str "assistant"), ("content", .arr [])]) = none ∧
    (indexRequest enc jparse emptyStore "r1" 0 reqOneMsg
        (some ⟨sc, isStr, b, chunks⟩)).2 = none ∧
    (∃ row, (indexRequest enc jparse emptyStore "r1" 0 reqOneMsg
        (some ⟨sc, isStr, b, chunks⟩)).1.contexts = [row] ∧
      row.responseMessageId = some 2) ∧
    (∃ cr, lookupContent (indexRequest enc jparse emptyStore "r1" 0 reqOneMsg
        (some ⟨sc, isStr, b, chunks⟩)).1 2 = some cr ∧
      cr.role = "assistant" ∧ cr.signature = "" ∧ cr.tokenEstimate = 0 ∧
      cr.content = serializeJson nullAssistantMsg) := by
  have hrec : reconstructStreamingResponse jparse chunks = nullAssistantMsg :=
    reconstruct_no_start jparse chunks hnostart
  have hbuild : buildResponseMsg jparse (some ⟨sc, isStr, b, chunks⟩)
      = some nullAssistantMsg := by
    unfold buildResponseMsg
    simp only [hbody]
    rw [if_neg (by
      cases chunks with
      | nil => exact absurd rfl hne
      | cons c cs => simp)]
    rw [hrec]
  have hir : internResponse enc jparse (c9St1 enc) "r1"
      (some ⟨sc, isStr, b, chunks⟩) = (c9St2 enc, some 2) := by
    unfold internResponse
    rw [hbuild]
    rfl
  have hpm : processMessages enc "r1" 0
      ([(msgStrForm : Json)]).length [msgStrForm] 0 emptyStore [] 0
      = .ok (c9St1 enc, [1], 1) := rfl
  have htx := indexRequestTx_eq enc jparse emptyStore "r1" 0 reqOneMsg
    (some ⟨sc, isStr, b, chunks⟩) ⟨[msgStrForm], none, none⟩
    (c9St1 enc) [1] 1 (c9St2 enc) (some 2) rfl
    (List.cons_ne_nil _ _) hpm hir rfl
  have hout : indexRequest enc jparse emptyStore "r1" 0 reqOneMsg
      (some ⟨sc, isStr, b, chunks⟩)
      = ({ c9St2 enc with contexts := (c9St2 enc).contexts ++
          [⟨"r1", 0, 1,
            (if ([1] : List Nat).length > 1 then idsJoin ([1] : List Nat).dropLast else ""),
            idsJoin [1],
            (if ([1] : List Nat).length > 1 then ([1] : List Nat).length - 1 else 0),
            (extractResponseMetadata (some ⟨sc, isStr, b, chunks⟩)).statusCode,
            (extractResponseMetadata (some ⟨sc, isStr, b, chunks⟩)).streaming,
            (extractResponseMetadata (some ⟨sc, isStr, b, chunks⟩)).stopReason,
            (extractResponseMetadata (some ⟨sc, isStr, b, chunks⟩)).responseID,
            (extractResponseMetadata (some ⟨sc, isStr, b, chunks⟩)).responseRole,
            (extractResponseMetadata (some ⟨sc, isStr, b, chunks⟩)).responseSignature,
            some 2, estimateSystemTokens enc none,
            estimateToolsTokens enc none⟩] }, none) := by
    unfold indexRequest
    rw [htx]
  refine ⟨hrec, rfl, rfl, ?_, ?_, ?_⟩
  · rw [hout]
  · rw [hout]
    exact ⟨_, rfl, rfl⟩
  · rw [hout]
    refine ⟨c9Row2 enc, rfl, rfl, rfl, estimateTokens_nullAssistant enc, rfl⟩

/-- C9 witness: the null-content theorem applied to a concrete streamed
response holding a single `message_delta` chunk. -/
theorem C9_null_content_interned_witness :
    reconstructStreamingResponse jparse0 [some (evMessageDelta "end_turn")]
        = nullAssistantMsg ∧
    ∃ cr, lookupContent (indexRequest none jparse0 emptyStore "r1" 0 reqOneMsg
        (some ⟨200, true, none, [some (evMessageDelta "end_turn")]⟩)).1 2
        = some cr ∧ cr.signature = "" ∧ cr.tokenEstimate = 0 :=
  match C9_null_content_interned none jparse0 200 true none
      [some (evMessageDelta "end_turn")] (List.cons_ne_nil _ _)
      (by decide) rfl with
  | ⟨h1, _, _, _, _, ⟨cr, hcr, _, hsig, htok, _⟩⟩ => ⟨h1, cr, hcr, hsig, htok⟩

/-! ### C1 -/

/-- C1 counterexample: after one successful IndexRequest for exchange "r1",
calling IndexRequest again with identical input is NOT an idempotent
replace: the second call fails with the `messages` primary-key uniqueness
error and commits nothing (the store is unchanged, the original row — not a
replacement — remains the only one). -/
theorem C1_counterexample :
    (indexRequest none jparse0 emptyStore "r1" 10 reqThreeMsgs none).2
        = none ∧
    (indexRequest none jparse0
        (indexRequest none jparse0 emptyStore "r1" 10 reqThreeMsgs none).1
        "r1" 10 reqThreeMsgs none).2 = some "failed to insert message" ∧
    (indexRequest none jparse0
        (indexRequest none jparse0 emptyStore "r1" 10 reqThreeMsgs none).1
        "r1" 10 reqThreeMsgs none).1
      = (indexRequest none jparse0 emptyStore "r1" 10 reqThreeMsgs none).1 ∧
    countContexts
      (indexRequest none jparse0 emptyStore "r1" 10 reqThreeMsgs none).1
      "r1" = 1 :=
  ⟨by decide, by decide, by decide, by decide⟩

/-- When the store already holds a `messages` row at `(rid, 0)`, the
transaction of a re-index of `rid` aborts at the first message insert with
the primary-key uniqueness error. -/
theorem indexRequestTx_conflict (enc : Enc) (jparse : String → Option Json)
    (stX : Store) (rid : String) (ts : Int) (body : Json)
    (resp : Option CapturedResponse) (req : ParsedRequest) (m : Json)
    (rest : List Json) (role1 : String) (c1 : Option Json)
    (hreq : parseRequest body = some req) (hms : req.messages = m :: rest)
    (hparse1 : parseMessage m = some (role1, c1))
    (hrow : ∃ r ∈ stX.messages, r.reqId = rid ∧ r.pos = 0) :
    indexRequestTx enc jparse stX rid ts body resp
      = .error "failed to insert message" := by
  obtain ⟨r0, hr0mem, hr0id, hr0pos⟩ := hrow
  unfold indexRequestTx
  simp only [hreq]
  rw [if_neg (fun hc => (by rw [hms] at hc; simp at hc : False))]
  rw [hms]
  simp only [processMessages]
  rw [hparse1]
  simp only
  rw [if_pos (List.any_eq_true.mpr ⟨r0, by
    rw [(intern_messages_contexts enc stX m role1 c1 rid).1]
    exact hr0mem, by simp [hr0id, hr0pos]⟩)]

/-- `indexRequest` form of the conflict lemma: the call fails and rolls
back. -/
theorem indexRequest_conflict (enc : Enc) (jparse : String → Option Json)
    (stX : Store) (rid : String) (ts : Int) (body : Json)
    (resp : Option CapturedResponse) (req : ParsedRequest) (m : Json)
    (rest : List Json) (role1 : String) (c1 : Option Json)
    (hreq : parseRequest body = some req) (hms : req.messages = m :: rest)
    (hparse1 : parseMessage m = some (role1, c1))
    (hrow : ∃ r ∈ stX.messages, r.reqId = rid ∧ r.pos = 0) :
    indexRequest enc jparse stX rid ts body resp
      = (stX, some "failed to insert message") := by
  unfold indexRequest
  rw [indexRequestTx_conflict enc jparse stX rid ts body resp req m rest
    role1 c1 hreq hms hparse1 hrow]

/-- C1 (amended): re-indexing an exchange id whose rows are already
committed is rejected rather than replayed.  After a successful first call
on a non-empty messages array, exactly one ExchangeContext row for that
exchange id exists, and the identical second call returns the
`messages`-primary-key uniqueness error with the store rolled back
unchanged — so afterwards that one row (the first call's, neither
duplicated nor replaced) is still the only one. -/
theorem C1_second_call_rejected (enc : Enc) (jparse : String → Option Json)
    (st : Store) (rid : String) (ts : Int) (body : Json)
    (resp : Option CapturedResponse) (st1 : Store) (req : ParsedRequest)
    (hok : indexRequest enc jparse st rid ts body resp = (st1, none))
    (hreq : parseRequest body = some req) (hne : req.messages ≠ []) :
    countContexts st1 rid = 1 ∧
    indexRequest enc jparse st1 rid ts body resp
      = (st1, some "failed to insert message") := by
  obtain ⟨m, rest, hms⟩ : ∃ m rest, req.messages = m :: rest := by
    cases hmm : req.messages with
    | nil => exact absurd hmm hne
    | cons m rest => exact ⟨m, rest, rfl⟩
  have htx : indexRequestTx enc jparse st rid ts body resp = .ok st1 := by
    unfold indexRequest at hok
    cases h : indexRequestTx enc jparse st rid ts body resp with
    | ok s => rw [h] at hok; injection hok with h1 h2; rw [h1]
    | error e => rw [h] at hok; simp at hok
  unfold indexRequestTx at htx
  simp only [hreq] at htx
  rw [if_neg (fun hc => hne (List.isEmpty_iff.mp hc))] at htx
  cases hpm : processMessages enc rid ts req.messages.length req.messages 0
      st [] 0 with
  | error e => rw [hpm] at htx; exact absurd htx (by simp)
  | ok outp =>
    rw [hpm] at htx
    obtain ⟨stA, ctxIDs, lastId⟩ := outp
    simp only at htx
    split at htx
    · exact absurd htx (by simp)
    · rename_i hany
      rw [Bool.not_eq_true] at hany
      injection htx with htx
      subst htx
      have hicm := internResponse_messages_contexts enc jparse stA rid resp
      have hfirst := processMessages_first_row enc rid ts req.messages.length
        m rest 0 st [] 0 _ (by rw [← hms]; exact hpm)
      obtain ⟨⟨role1, c1, hparse1⟩, r0, hr0mem, hr0id, hr0pos⟩ := hfirst
      have hr0mem1 :
          r0 ∈ (internResponse enc jparse stA rid resp).1.messages := by
        rw [hicm.1]; exact hr0mem
      constructor
      · -- exactly one context row for rid
        simp only [countContexts, List.countP_append]
        have h0 : (internResponse enc jparse stA rid resp).1.contexts.countP
            (fun r => r.reqId == rid) = 0 := by
          rw [List.countP_eq_zero]
          intro a ha
          have ha2 := (List.any_eq_false.mp hany) a ha
          simpa using ha2
        rw [h0]
        simp
      · -- the second call hits the (id, position) primary key
        exact indexRequest_conflict enc jparse _ rid ts body resp req m rest
          role1 c1 hreq hms hparse1 ⟨r0, hr0mem1, hr0id, hr0pos⟩

/-- C1 witness for the amended claim: the concrete three-message exchange
indexed once leaves exactly one context row; the identical second call is
rejected with the uniqueness error and the unchanged store. -/
theorem C1_second_call_rejected_witness :
    countContexts
      (indexRequest none jparse0 emptyStore "r1" 10 reqThreeMsgs none).1
      "r1" = 1 ∧
    indexRequest none jparse0
        (indexRequest none jparse0 emptyStore "r1" 10 reqThreeMsgs none).1
        "r1" 10 reqThreeMsgs none
      = ((indexRequest none jparse0 emptyStore "r1" 10 reqThreeMsgs none).1,
          some "failed to insert message") :=
  C1_second_call_rejected none jparse0 emptyStore "r1" 10 reqThreeMsgs none
    (indexRequest none jparse0 emptyStore "r1" 10 reqThreeMsgs none).1
    ⟨[.obj [("role", .str "user"), ("content", .str "hi")],
      .obj [("role", .str "assistant"),
        ("content", .arr [.obj [("type", .str "text"),
          ("text", .str "hello")]])],
      .obj [("role", .str "user"), ("content", .str "how are you")]],
      none, none⟩
    (by decide) rfl (List.cons_ne_nil _ _)

/-! ### C8 -/

theorem strJoin_data : ∀ l : List String,
    (strJoin l).data = csJoin (l.map String.data)
  | [] => rfl
  | [_] => rfl
  | s :: t :: ts => by
    show (s ++ "," ++ strJoin (t :: ts)).data = _
    rw [String.data_append, String.data_append, strJoin_data (t :: ts),
      List.append_assoc]
    rfl

theorem csJoin_append : ∀ (l m : List (List Char)), l ≠ [] → m ≠ [] →
    csJoin (l ++ m) = csJoin l ++ ',' :: csJoin m
  | [], _, hl, _ => absurd rfl hl
  | [x], m, _, hm => by
    cases m with
    | nil => exact absurd rfl hm
    | cons y ys => rfl
  | x :: y :: ys, m, _, hm => by
    have ih := csJoin_append (y :: ys) m (List.cons_ne_nil _ _) hm
    show x ++ ',' :: csJoin ((y :: ys) ++ m) = _
    rw [ih]
    show _ = (x ++ ',' :: csJoin (y :: ys)) ++ ',' :: csJoin m
    rw [List.append_assoc]
    rfl

theorem comma_peel : ∀ (a b t u : List Char), ',' ∉ a → ',' ∉ b →
    a ++ ',' :: t = b ++ ',' :: u → a = b ∧ t = u
  | [], [], _, _, _, _, h => ⟨rfl, by injection h⟩
  | [], c :: _, _, _, _, hb, h => by
    injection h with h1 _
    subst h1
    exact absurd (List.mem_cons_self _ _) hb
  | c :: _, [], _, _, ha, _, h => by
    injection h with h1 _
    rw [← h1] at ha
    exact absurd (List.mem_cons_self _ _) ha
  | c :: a', d :: b', t, u, ha, hb, h => by
    injection h with h1 h2
    subst h1
    have hrec := comma_peel a' b' t u
      (fun hm => ha (List.mem_cons_of_mem _ hm))
      (fun hm => hb (List.mem_cons_of_mem _ hm)) h2
    exact ⟨by rw [hrec.1], hrec.2⟩

theorem csJoin_eq_single : ∀ (parts : List (List Char)) (p : List Char),
    p ≠ [] → ',' ∉ p → csJoin parts = p → parts = [p]
  | [], p, hp, _, h => absurd h.symm hp
  | [q], p, _, _, h => by rw [show q = p from h]
  | _ :: _ :: _, p, _, hpc, h => by
    exfalso
    apply hpc
    rw [← h]
    exact List.mem_append.mpr (Or.inr (List.mem_cons_self _ _))

theorem prefix_cons_of {α : Type} (a : α) {l1 l2 : List α}
    (h : l1 <+: l2) : a :: l1 <+: a :: l2 := by
  obtain ⟨t, ht⟩ := h
  exact ⟨t, by rw [List.cons_append, ht]⟩

theorem csJoin_prefix_forward : ∀ (pls parts : List (List Char)),
    pls ≠ [] → (∀ x ∈ pls, x ≠ [] ∧ ',' ∉ x) →
    (∀ x ∈ parts, x ≠ [] ∧ ',' ∉ x) →
    (csJoin pls ++ [','] <+: csJoin parts ∨ csJoin parts = csJoin pls) →
    pls <+: parts
  | [], _, hne, _, _, _ => absurd rfl hne
  | [p], parts, _, hwfp, hwf, h => by
    have hp := hwfp p (by simp)
    cases h with
    | inr heq =>
      rw [csJoin_eq_single parts p hp.1 hp.2 heq]
    | inl hpre =>
      cases parts with
      | nil =>
        obtain ⟨s, hs⟩ := hpre
        exact absurd hs (by simp [csJoin])
      | cons q qs =>
        have hq := hwf q (by simp)
        cases qs with
        | nil =>
          obtain ⟨s, hs⟩ := hpre
          refine absurd ?_ hq.2
          rw [show (q : List Char) = csJoin [q] from rfl, ← hs]
          simp
        | cons y ys =>
          obtain ⟨s, hs⟩ := hpre
          rw [List.append_assoc] at hs
          have hpeel := comma_peel p q s (csJoin (y :: ys)) hp.2 hq.2 hs
          rw [hpeel.1]
          exact ⟨y :: ys, rfl⟩
  | p :: p2 :: pls', parts, _, hwfp, hwf, h => by
    have hp := hwfp p (by simp)
    have hwfp' : ∀ x ∈ p2 :: pls', x ≠ [] ∧ ',' ∉ x :=
      fun x hx => hwfp x (List.mem_cons_of_mem _ hx)
    cases parts with
    | nil =>
      cases h with
      | inl hpre =>
        obtain ⟨s, hs⟩ := hpre
        exact absurd hs (by simp [csJoin])
      | inr heq =>
        refine absurd heq ?_
        show csJoin ([] : List (List Char)) ≠ p ++ ',' :: csJoin (p2 :: pls')
        simp [csJoin]
    | cons q qs =>
      have hq := hwf q (by simp)
      have hwf' : ∀ x ∈ qs, x ≠ [] ∧ ',' ∉ x :=
        fun x hx => hwf x (List.mem_cons_of_mem _ hx)
      cases qs with
      | nil =>
        cases h with
        | inl hpre =>
          obtain ⟨s, hs⟩ := hpre
          refine absurd ?_ hq.2
          rw [show (q : List Char) = csJoin [q] from rfl, ← hs]
          simp [csJoin]
        | inr heq =>
          refine absurd ?_ hq.2
          rw [show (q : List Char) = csJoin [q] from rfl, heq]
          simp [csJoin]
      | cons y ys =>
        cases h with
        | inr heq =>
          have heq2 : q ++ ',' :: csJoin (y :: ys)
              = p ++ ',' :: csJoin (p2 :: pls') := heq
          have hpeel := comma_peel q p (csJoin (y :: ys))
            (csJoin (p2 :: pls')) hq.2 hp.2 heq2
          have hrec := csJoin_prefix_forward (p2 :: pls') (y :: ys)
            (List.cons_ne_nil _ _) hwfp' hwf' (Or.inr hpeel.2)
          rw [← hpeel.1]
          exact prefix_cons_of q hrec
        | inl hpre =>
          obtain ⟨s, hs⟩ := hpre
          have hs2 : p ++ ',' :: (csJoin (p2 :: pls') ++ ',' :: s)
              = csJoin (q :: y :: ys) := by
            rw [← hs]
            show _ = (p ++ ',' :: csJoin (p2 :: pls')) ++ [','] ++ s
            rw [List.append_assoc, List.append_assoc]
            rfl
          have hpeel := comma_peel p q (csJoin (p2 :: pls') ++ ',' :: s)
            (csJoin (y :: ys)) hp.2 hq.2 hs2
          have hrec := csJoin_prefix_forward (p2 :: pls') (y :: ys)
            (List.cons_ne_nil _ _) hwfp' hwf'
            (Or.inl ⟨s, by rw [List.append_assoc]; exact hpeel.2⟩)
          rw [hpeel.1]
          exact prefix_cons_of q hrec

theorem csJoin_prefix_backward (pls parts : List (List Char))
    (hne : pls ≠ []) (hpre : pls <+: parts) :
    csJoin pls ++ [','] <+: csJoin parts ∨ csJoin parts = csJoin pls := by
  obtain ⟨rest, hrest⟩ := hpre
  cases rest with
  | nil =>
    right
    rw [← hrest, List.append_nil]
  | cons y ys =>
    left
    rw [← hrest, csJoin_append pls (y :: ys) hne (List.cons_ne_nil _ _)]
    exact ⟨csJoin (y :: ys), by simp⟩

theorem wf_map_data (l : List String) (hw : wfIdList l) :
    ∀ x ∈ l.map String.data, x ≠ [] ∧ ',' ∉ x := by
  intro x hx
  obtain ⟨s, hsmem, rfl⟩ := List.mem_map.mp hx
  obtain ⟨h1, h2⟩ := hw s hsmem
  exact ⟨fun hc => h1 (String.ext hc), h2⟩

/-- The row filter of `FindConversationsByPrefix` agrees with list-of-ids
prefix semantics for non-empty wellformed prefixes. -/
theorem likeCtxMatch_iff (pl parts : List String)
    (hwl : wfIdList pl) (hwp : wfIdList parts) (hne : pl ≠ []) :
    likeCtxMatch (strJoin pl) (strJoin parts) = true ↔ pl <+: parts := by
  unfold likeCtxMatch
  rw [Bool.or_eq_true, List.isPrefixOf_iff_prefix, beq_iff_eq]
  have hmapne : pl.map String.data ≠ [] := by
    cases pl with
    | nil => exact absurd rfl hne
    | cons a l => simp
  constructor
  · intro h
    have hchar : pl.map String.data <+: parts.map String.data := by
      apply csJoin_prefix_forward _ _ hmapne (wf_map_data pl hwl)
        (wf_map_data parts hwp)
      cases h with
      | inl hp =>
        left
        rw [← strJoin_data, ← strJoin_data]
        exact hp
      | inr he =>
        right
        rw [← strJoin_data, ← strJoin_data]
        exact congrArg String.data he
    rw [List.prefix_iff_eq_take] at hchar ⊢
    rw [List.length_map, ← List.map_take] at hchar
    have hinj : Function.Injective String.data := fun a b hab => String.ext hab
    exact List.map_injective_iff.mpr hinj hchar
  · intro h
    have hchar : pl.map String.data <+: parts.map String.data :=
      h.map String.data
    cases csJoin_prefix_backward (pl.map String.data)
        (parts.map String.data) hmapne hchar with
    | inl hp =>
      left
      rw [← strJoin_data, ← strJoin_data] at hp
      exact hp
    | inr he =>
      right
      apply String.ext
      rw [strJoin_data, strJoin_data]
      exact he

/-- With the empty prefix the filter matches exactly the rows with empty
context (not every row, as list-prefix semantics would demand). -/
theorem likeCtxMatch_empty (parts : List String) (hwp : wfIdList parts) :
    (likeCtxMatch "" (strJoin parts) = true ↔ parts = []) := by
  unfold likeCtxMatch
  cases parts with
  | nil => decide
  | cons p ps =>
    obtain ⟨hp1, hp2⟩ := hwp p (by simp)
    obtain ⟨c, cs, hc⟩ : ∃ c cs, p.data = c :: cs := by
      cases hpd : p.data with
      | nil => exact absurd (String.ext hpd) hp1
      | cons c cs => exact ⟨c, cs, rfl⟩
    obtain ⟨rest2, hrest2⟩ : ∃ rest2,
        (strJoin (p :: ps)).data = p.data ++ rest2 := by
      rw [strJoin_data]
      cases ps with
      | nil => exact ⟨[], by simp [csJoin]⟩
      | cons q qs => exact ⟨',' :: csJoin ((q :: qs).map String.data), rfl⟩
    rw [Bool.or_eq_true, List.isPrefixOf_iff_prefix, beq_iff_eq]
    constructor
    · rintro (hpre | heq)
      · exfalso
        obtain ⟨s, hs⟩ := hpre
        rw [hrest2, hc] at hs
        replace hs : ',' :: s = c :: (cs ++ rest2) := hs
        injection hs with h1 _
        rw [← h1] at hc
        exact hp2 (by rw [hc]; exact List.mem_cons_self _ _)
      · exfalso
        have hd := congrArg String.data heq
        rw [hrest2, hc] at hd
        exact absurd hd (by simp)
    · intro hcontra
      exact absurd hcontra (by simp)

/-- Membership in `FindConversationsByPrefix`. -/
theorem mem_FindConversationsByPrefix (db : List ContextRow) (pfx : String)
    (r : ContextRow) :
    r ∈ FindConversationsByPrefix db pfx ↔
      r ∈ db ∧ likeCtxMatch pfx r.context = true := by
  unfold FindConversationsByPrefix
  rw [sortByTs_mem, List.mem_filter]

/-- C8 counterexample: for an exchange with empty context the computed
prefix is empty, and the query returns only the rows whose context is
itself empty — although the empty prefix is a list-of-ids prefix of every
context, e.g. of the row with context "7", which is not returned. -/
theorem C8_counterexample :
    computeContextPrefix "" = "" ∧
    FindConversationsByPrefix [mkCtxRow "a" 0 "", mkCtxRow "b" 1 "7"]
        ( computeContextPrefix "") = [mkCtxRow "a" 0 ""] ∧
    ([] : List String).isPrefixOf ["7"] = true ∧
    mkCtxRow "b" 1 "7" ∉
      FindConversationsByPrefix [mkCtxRow "a" 0 "", mkCtxRow "b" 1 "7"]
        ( computeContextPrefix "") :=
  ⟨rfl, by decide, by decide, by decide⟩

/-- C8 (amended): the find-related-exchanges operation computes its search
prefix by dropping 2 ids when the context list has at least 4 elements,
else 1 when at least 2, else 0 (`popRule`).  For a NON-EMPTY wellformed
prefix list it returns exactly the stored exchanges whose context id-list
starts with that prefix (list-of-ids semantics, not raw substring), ordered
by timestamp ascending; for the EMPTY prefix it returns exactly the
exchanges whose context is empty, not all exchanges. -/
theorem C8_prefix_search (db : List ContextRow) (ctx : String)
    (pl parts : List String) (r : ContextRow) :
    (computeContextPrefix "" = "" ∧
      (ctx ≠ "" → computeContextPrefix ctx
        = strJoin (popRule (splitComma ctx)))) ∧
    List.Sorted (fun a b => a.timestamp ≤ b.timestamp)
      (FindConversationsByPrefix db (strJoin pl)) ∧
    (wfIdList pl → pl ≠ [] → wfIdList parts → r.context = strJoin parts →
      (r ∈ FindConversationsByPrefix db (strJoin pl) ↔
        r ∈ db ∧ pl <+: parts)) ∧
    (wfIdList parts → r.context = strJoin parts →
      (r ∈ FindConversationsByPrefix db "" ↔ r ∈ db ∧ parts = [])) := by
  refine ⟨⟨rfl, ?_⟩, ?_, ?_, ?_⟩
  · intro hctx
    simp only [computeContextPrefix, popRule]
    rw [if_neg hctx]
    split_ifs <;> first | rfl | omega
  · unfold FindConversationsByPrefix
    exact sortByTs_sorted _ _
  · intro hwl hne hwp hctxr
    rw [mem_FindConversationsByPrefix, hctxr,
      likeCtxMatch_iff pl parts hwl hwp hne]
  · intro hwp hctxr
    rw [mem_FindConversationsByPrefix, hctxr,
      likeCtxMatch_empty parts hwp]

/-- C8 witness: the amended theorem at concrete data — the prefix of a
5-id context drops 2 ids, and a concrete prefix search returns exactly the
extensions of the prefix, ordered by timestamp. -/
theorem C8_prefix_search_witness :
    computeContextPrefix "1,2,3,4,5"
      = strJoin (popRule (splitComma "1,2,3,4,5")) ∧
    (mkCtxRow "a" 0 "1,2,3" ∈
        FindConversationsByPrefix [mkCtxRow "a" 0 "1,2,3"]
          (strJoin ["1", "2"]) ↔
      mkCtxRow "a" 0 "1,2,3" ∈ [mkCtxRow "a" 0 "1,2,3"] ∧
        ["1", "2"] <+: ["1", "2", "3"]) ∧
    (mkCtxRow "b" 1 "7" ∈
        FindConversationsByPrefix [mkCtxRow "b" 1 "7"] "" ↔
      mkCtxRow "b" 1 "7" ∈ [mkCtxRow "b" 1 "7"] ∧ ["7"] = []) :=
  ⟨((C8_prefix_search [] "1,2,3,4,5" [] [] (mkCtxRow "x" 0 "")).1).2
      (by decide),
   ((C8_prefix_search [mkCtxRow "a" 0 "1,2,3"] "" ["1", "2"]
        ["1", "2", "3"] (mkCtxRow "a" 0 "1,2,3")).2.2.1)
      (by decide) (List.cons_ne_nil _ _) (by decide) (by decide),
   ((C8_prefix_search [mkCtxRow "b" 1 "7"] "" [] ["7"]
        (mkCtxRow "b" 1 "7")).2.2.2) (by decide) (by decide)⟩

end ClaudeProxy
